import Mathlib

/-!
Verification development for the MQ2Lua cooperative script scheduler
(`src/plugins/lua/MQ2Lua.cpp`, `LuaEvent.h`, `LuaCommon.h`).

The file shallowly embeds the plugin's data model and the operations the
spec talks about:

* the event-trigger engine (`LuaEvent`, `LuaEventProcessor`, `process`,
  `run_events`) — the processor's member functions live in `LuaEvent.cpp`,
  which is not part of the sources, so their bodies are modelled from the
  design spec (doc comments mark these);
* the lifecycle machinery of `MQ2Lua.cpp` (`LuaRunCommand`,
  `LuaStopCommand`, `LuaPauseCommand`, `OnPulse` including the registry
  garbage collection, the `Script` TLO lookup, the chat callbacks and the
  `infoGC` interval parsing from `ReadSettings`).

Machine integers (`uint32_t` pids, `time_t` timestamps, `uint64_t`
intervals) are modelled as `Nat`; none of the embedded arithmetic can
overflow in the scenarios the theorems consider.
-/

namespace MQ2Lua

/-- Execution status of a script, mirroring `LuaThreadStatus` as used by
`MQ2Lua.cpp` (`Running`, `Paused`, `Exited`). -/
inductive LuaThreadStatus where
  | Running
  | Paused
  | Exited
deriving DecidableEq

/-- One registered trigger, mirroring `events::LuaEvent` of `LuaEvent.h`
(name, expression, handler id; the sol::function handler itself is kept
outside the data). -/
structure LuaEvent where
  Name : String
  Expression : String
  ID : Nat
deriving DecidableEq

/-- One queued invocation, mirroring `events::LuaEventInstance` of
`LuaEvent.h`: the matched trigger definition plus the captured args. -/
structure LuaEventInstance where
  EventDefinition : LuaEvent
  Args : List String
deriving DecidableEq

/-- The per-thread event engine, mirroring `events::LuaEventProcessor` of
`LuaEvent.h`: the registration list and the FIFO invocation queue.  The
compiled Blech automaton is represented by the registration list itself;
matching is supplied externally (see `Matcher`). -/
structure LuaEventProcessor where
  EventDefinitions : List LuaEvent
  EventQueue : List LuaEventInstance
deriving DecidableEq

/-- Modelled from the spec: the pattern matcher.  `m expr line = some args`
means the compiled pattern `expr` matches `line`, capturing `args`.  The
Blech automaton implementation is not among the sources; the spec requires
matching to be a deterministic, side-effect-free classification, which a
function value captures. -/
def Matcher : Type := String → String → Option (List String)

/-- Modelled from the spec: classification of one line against every
registered trigger, in registration order (spec §4.1: "if multiple
triggers match the same line, all of them fire, in registration order"). -/
def classify (m : Matcher) (defs : List LuaEvent) (line : String) :
    List LuaEventInstance :=
  defs.filterMap fun e => (m e.Expression line).map fun args => ⟨e, args⟩

/-- Modelled from the spec: `LuaEventProcessor::process` — feed one line to
the matcher and append every match to the FIFO queue; registrations are
untouched (spec §4.1: "Side effect: none beyond returning matches"). -/
def process (m : Matcher) (line : String) (p : LuaEventProcessor) :
    LuaEventProcessor :=
  { p with EventQueue := p.EventQueue ++ classify m p.EventDefinitions line }

/-- Modelled from the spec: `LuaEventProcessor::remove_event` — drop the
registration with the given name. -/
def remove_event (name : String) (p : LuaEventProcessor) : LuaEventProcessor :=
  { p with EventDefinitions := p.EventDefinitions.filter fun e => e.Name != name }

/-- Modelled from the spec: `LuaEventProcessor::add_event` —
"re-registering the same name must first remove the old one" (spec §3),
then the new trigger is appended, so list order is registration order. -/
def add_event (name expression : String) (id : Nat) (p : LuaEventProcessor) :
    LuaEventProcessor :=
  let p₁ := remove_event name p
  { p₁ with EventDefinitions := p₁.EventDefinitions ++ [⟨name, expression, id⟩] }

/-- A handler's observable effect on the queue during a drain: the list of
invocations it enqueues while it runs (spec §4.2). -/
def Handler : Type := LuaEventInstance → List LuaEventInstance

/-- Modelled from the spec: the drain loop of
`LuaEventProcessor::run_events`.  The first argument is the snapshot of the
queue length taken at entry (spec §4.2: "drain takes a snapshot of queue
length at entry"); each step pops the front invocation, records it as
invoked, and appends whatever its handler enqueued. -/
def run_events_loop (h : Handler) :
    Nat → List LuaEventInstance → List LuaEventInstance →
    List LuaEventInstance × List LuaEventInstance
  | 0, q, invoked => (invoked.reverse, q)
  | _ + 1, [], invoked => (invoked.reverse, [])
  | n + 1, i :: rest, invoked => run_events_loop h n (rest ++ h i) (i :: invoked)

/-- Modelled from the spec: `LuaEventProcessor::run_events` — drain exactly
the invocations queued at entry, returning the invoked list (in order) and
the processor with the remaining queue. -/
def run_events (h : Handler) (p : LuaEventProcessor) :
    List LuaEventInstance × LuaEventProcessor :=
  let r := run_events_loop h p.EventQueue.length p.EventQueue []
  (r.1, { p with EventQueue := r.2 })

/-- Durable process-table entry, mirroring `LuaThreadInfo` as consumed by
`MQ2Lua.cpp` (pid, name, path, arguments, startTime, endTime — `0` while
running —, returnValues, status). -/
structure LuaThreadInfo where
  pid : Nat
  name : String
  path : String
  arguments : List String
  startTime : Nat
  endTime : Nat
  returnValues : List String
  status : LuaThreadStatus
deriving DecidableEq

/-- A live script instance, mirroring the parts of `LuaThread` that
`MQ2Lua.cpp` reads or writes: pid, name, resolved script path, the paused
flag of its state machine (`state->IsPaused()`), the abandoned flag set by
`YieldAt(0)` + `thread.abandon()` in `LuaStopCommand`, and its event
processor. -/
structure LuaThread where
  pid : Nat
  name : String
  path : String
  paused : Bool
  abandoned : Bool
  eventProcessor : LuaEventProcessor
deriving DecidableEq

/-- The plugin's file-scope state: `s_running` (iteration order = launch
order), `s_infoMap` (an association list standing in for the
`unordered_map`, list order = iteration order), the next pid the `LuaThread`
constructor will assign, and `OnPulse`'s static `last_check_time`. -/
structure PluginState where
  running : List LuaThread
  infoMap : List (Nat × LuaThreadInfo)
  nextPid : Nat
  lastCheckTime : Nat
deriving DecidableEq

/-- `s_infoMap.emplace(pid, info)`: insert only when the key is absent
(`std::unordered_map::emplace` semantics). -/
def emplace (k : Nat) (v : LuaThreadInfo) (m : List (Nat × LuaThreadInfo)) :
    List (Nat × LuaThreadInfo) :=
  if m.any fun kv => kv.1 == k then m else m ++ [(k, v)]

/-- Apply `f` to the value of the first entry with key `k` (how `MQ2Lua.cpp`
mutates `s_infoMap` through a found iterator; a no-op when the key is
absent, matching the `find != end` guards). -/
def updateInfoFirst (k : Nat) (f : LuaThreadInfo → LuaThreadInfo) :
    List (Nat × LuaThreadInfo) → List (Nat × LuaThreadInfo)
  | [] => []
  | kv :: rest =>
    if kv.1 == k then (kv.1, f kv.2) :: rest
    else kv :: updateInfoFirst k f rest

/-- Outcome of the result observed by `LuaRunCommand`. The C++ function
returns the new pid on success and `0` after either of two distinct chat
messages; the constructors keep the two rejection messages apart. -/
inductive LaunchResult where
  | started (pid : Nat)
  | notFound
  | alreadyRunning
deriving DecidableEq

/-- The tail of `LuaRunCommand` once the duplicate checks have passed: a
`LuaThread` is constructed (assigning the next pid) and pushed onto
`s_running` *before* it runs; `StartFile` (not among the sources; modelled
from the spec as succeeding once the existence check passed) produces the
info record, whose status is set to `Running` and which is `emplace`d into
`s_infoMap`.  The resolved path doubles as the name, and `startTime` is the
current time. -/
def startNewThread (st : PluginState) (script : String) (args : List String)
    (now : Nat) : PluginState × LaunchResult :=
  let t : LuaThread := ⟨st.nextPid, script, script, false, false, ⟨[], []⟩⟩
  let info : LuaThreadInfo :=
    ⟨st.nextPid, script, script, args, now, 0, [], LuaThreadStatus.Running⟩
  ({ st with
      running := st.running ++ [t]
      infoMap := emplace st.nextPid info st.infoMap
      nextPid := st.nextPid + 1 },
   LaunchResult.started st.nextPid)

/-- `LuaRunCommand` (`MQ2Lua.cpp:402`): resolve the script path (path
resolution and `fs::equivalent` are abstracted into string equality of
resolved paths, with `fileExists` standing for the filesystem existence
check); reject with `notFound` when the file is missing; otherwise find the
first registry record with the same path — if it is not `Exited`, reject
(`alreadyRunning`) with no state change; if it is `Exited`, erase it and
launch; if there is none, launch. -/
def LuaRunCommand (st : PluginState) (script : String) (args : List String)
    (fileExists : Bool) (now : Nat) : PluginState × LaunchResult :=
  if fileExists = false then (st, LaunchResult.notFound)
  else
    match st.infoMap.find? fun kv => kv.2.path == script with
    | some kv =>
      if kv.2.status = LuaThreadStatus.Exited then
        startNewThread
          { st with infoMap := st.infoMap.eraseP fun kv => kv.2.path == script }
          script args now
      else (st, LaunchResult.alreadyRunning)
    | none => startNewThread st script args now

/-- Selector for the stop/pause commands: the argument is either a parsed
pid (`GetIntFromString` succeeded with a positive value) or a script name. -/
def threadSel (target : Nat ⊕ String) (t : LuaThread) : Bool :=
  match target with
  | Sum.inl pid => t.pid == pid
  | Sum.inr name => t.name == name

/-- The effect of `YieldAt(0)` followed by `thread.abandon()`: the thread
can never resume again and is reaped on the next pulse. -/
def stopThread (t : LuaThread) : LuaThread := { t with abandoned := true }

/-- Mark the first thread matched by `sel` as stopped, leaving the rest
untouched. -/
def stopFirst (sel : LuaThread → Bool) : List LuaThread → List LuaThread
  | [] => []
  | t :: ts => if sel t then stopThread t :: ts else t :: stopFirst sel ts

/-- `LuaStopCommand` with a script argument (`MQ2Lua.cpp:495`): the first
thread in `s_running` with that pid or name gets `YieldAt(0)` +
`thread.abandon()`; `s_infoMap` is not touched here (the registry learns of
the end on the next pulse). -/
def LuaStopCommand (st : PluginState) (target : Nat ⊕ String) : PluginState :=
  { st with running := stopFirst (threadSel target) st.running }

/-- `LuaStopCommand` with no argument: every running script is stopped. -/
def LuaStopAllCommand (st : PluginState) : PluginState :=
  { st with running := st.running.map stopThread }

/-- Modelled from the spec: `LuaThread`'s `Pause` member (its body is in
`LuaThread.cpp`, not among the sources).  Spec §4.3: `Running --calls
pause--> Paused` and `Paused --calls pause again / explicit resume-->
Running`, i.e. a toggle. -/
def pauseThread (t : LuaThread) : LuaThread := { t with paused := !t.paused }

/-- The status `Pause` reports back after toggling (stored into the info
record by `LuaPauseCommand`). -/
def pauseStatus (t : LuaThread) : LuaThreadStatus :=
  if t.paused then LuaThreadStatus.Paused else LuaThreadStatus.Running

/-- Toggle the first thread matched by `sel`, reporting its pid and the
status `Pause` returned. -/
def pauseFirst (sel : LuaThread → Bool) :
    List LuaThread → List LuaThread × Option (Nat × LuaThreadStatus)
  | [] => ([], none)
  | t :: ts =>
    if sel t then (pauseThread t :: ts, some (t.pid, pauseStatus (pauseThread t)))
    else
      let r := pauseFirst sel ts
      (t :: r.1, r.2)

/-- `LuaPauseCommand` with a script argument (`MQ2Lua.cpp:541`): toggle the
first matching thread's pause state and mirror the returned status into its
`s_infoMap` record (when one exists). -/
def LuaPauseCommand (st : PluginState) (target : Nat ⊕ String) : PluginState :=
  match pauseFirst (threadSel target) st.running with
  | (running₁, some ps) =>
    { st with
        running := running₁
        infoMap := updateInfoFirst ps.1 (fun i => { i with status := ps.2 }) st.infoMap }
  | (running₁, none) => { st with running := running₁ }

/-- `LuaPauseCommand` with no argument: both non-empty branches call
`Pause` on every thread in `s_running` and mirror each returned status into
the registry, so the combined effect is a toggle of every thread. -/
def LuaPauseAllCommand (st : PluginState) : PluginState :=
  { st with
      running := st.running.map pauseThread
      infoMap := st.running.foldl
        (fun m t =>
          updateInfoFirst t.pid
            (fun i => { i with status := pauseStatus (pauseThread t) }) m)
        st.infoMap }

/-- What one resumption of a script reports back, following the spec's
resumption contract (`resume(budget) -> {status, result}` with status in
Yielded / Completed / Faulted); `LuaThread::Run` is in `LuaThread.cpp`, not
among the sources, and is modelled from the spec as total — a runtime fault
is caught inside the resume call and surfaces as a status, never as an
escaping exception. -/
inductive RunOutcome where
  | yielded
  | completed (returnValues : List String)
  | faulted
deriving DecidableEq

/-- The outcome one pulse observes for a thread that is still resumable: a
paused thread just yields without progress (the scheduler skips it, spec
§4.4), otherwise the script's own behaviour `beh` decides. -/
def runOutcome (beh : Nat → RunOutcome) (t : LuaThread) : RunOutcome :=
  if t.paused then RunOutcome.yielded else beh t.pid

/-- Modelled from the spec: `LuaThreadInfo::SetResult` — record the return
values and mark the run finished at `now`. -/
def SetResult (now : Nat) (rv : List String) (i : LuaThreadInfo) : LuaThreadInfo :=
  { i with returnValues := rv, endTime := now, status := LuaThreadStatus.Exited }

/-- Modelled from the spec: `LuaThreadInfo::EndRun` — mark the run finished
at `now` with no return values. -/
def EndRun (now : Nat) (i : LuaThreadInfo) : LuaThreadInfo :=
  { i with endTime := now, status := LuaThreadStatus.Exited }

/-- Everything the `remove_if` lambda of `OnPulse` produces: the surviving
`s_running` list, the updated `s_infoMap`, the pids whose `Run` was invoked
this pulse (coroutine still in yielded status, i.e. not abandoned), and the
pids for which the "Ending lua script …" diagnostic was written. -/
structure PulseResult where
  running : List LuaThread
  infoMap : List (Nat × LuaThreadInfo)
  resumed : List Nat
  ended : List Nat

/-- The `remove_if` pass of `OnPulse` (`MQ2Lua.cpp:1247`), processed front
to back: an abandoned thread's coroutine status is no longer `yielded`, so
it is reaped via `EndRun` without being resumed; otherwise `Run` is called
— a yielded outcome keeps the thread, a completion stores its results via
`SetResult`, and a fault ends it via `EndRun`.  Every removal updates the
registry record (when present) before later threads are processed. -/
def pulseThreads (beh : Nat → RunOutcome) (now : Nat) :
    List LuaThread → List (Nat × LuaThreadInfo) → PulseResult
  | [], m => ⟨[], m, [], []⟩
  | t :: ts, m =>
    if t.abandoned then
      let r := pulseThreads beh now ts (updateInfoFirst t.pid (EndRun now) m)
      { r with ended := t.pid :: r.ended }
    else
      match runOutcome beh t with
      | RunOutcome.yielded =>
        let r := pulseThreads beh now ts m
        { r with running := t :: r.running, resumed := t.pid :: r.resumed }
      | RunOutcome.completed rv =>
        let r := pulseThreads beh now ts (updateInfoFirst t.pid (SetResult now rv) m)
        { r with resumed := t.pid :: r.resumed, ended := t.pid :: r.ended }
      | RunOutcome.faulted =>
        let r := pulseThreads beh now ts (updateInfoFirst t.pid (EndRun now) m)
        { r with resumed := t.pid :: r.resumed, ended := t.pid :: r.ended }

/-- The registry sweep of `OnPulse` (`MQ2Lua.cpp:1279`): erase every record
whose `endTime` is positive and at most `last_check_time`. -/
def gcSweep (lastCheck : Nat) (m : List (Nat × LuaThreadInfo)) :
    List (Nat × LuaThreadInfo) :=
  m.filter fun kv =>
    !(decide (0 < kv.2.endTime) && decide (kv.2.endTime ≤ lastCheck))

/-- The sweep trigger of `OnPulse` (`MQ2Lua.cpp:1271`): the guard
`s_infoGC > 0` and the comparison `now_time >= last_check_time +
static_cast<time_t>(s_infoGC)`.  `now`/`lastCheck` are `time_t` wall-clock
values; `infoGC` is the raw configured interval value. -/
def gcTriggered (infoGC lastCheck now : Nat) : Bool :=
  decide (0 < infoGC) && decide (lastCheck + infoGC ≤ now)

/-- The default of `s_infoGC` (`MQ2Lua.cpp:69`): `3600000 // 1 hour`,
i.e. one hour in milliseconds. -/
def s_infoGC_default : Nat := 3600000

/-- `OnPulse` (`MQ2Lua.cpp:1243`): run the `remove_if` pass over
`s_running`, then, when the GC timer fires, sweep the registry against the
old checkpoint and advance the checkpoint to this pulse's time. -/
def OnPulse (beh : Nat → RunOutcome) (now infoGC : Nat) (st : PluginState) :
    PluginState × PulseResult :=
  let r := pulseThreads beh now st.running st.infoMap
  if gcTriggered infoGC st.lastCheckTime now then
    ({ st with
        running := r.running
        infoMap := gcSweep st.lastCheckTime r.infoMap
        lastCheckTime := now }, r)
  else
    ({ st with running := r.running, infoMap := r.infoMap }, r)

/-- The `Members::Script` branch of `MQ2LuaType::GetMember` with an empty
index (`MQ2Lua.cpp:341`): starting from the map's first record, scan for
the latest `startTime` among records with `endTime > 0` (each candidate is
compared against the current `latest`, whatever its own `endTime`), and
return the final candidate only if its `endTime` is positive. -/
def GetMember_Script (m : List (Nat × LuaThreadInfo)) : Option LuaThreadInfo :=
  match m with
  | [] => none
  | first :: _ =>
    let latest := m.foldl
      (fun latest kv =>
        if 0 < kv.2.endTime ∧ latest.2.startTime < kv.2.startTime then kv
        else latest)
      first
    if 0 < latest.2.endTime then some latest.2 else none

/-- `OnWriteChatColor` (`MQ2Lua.cpp:1584`): feed the line to every
non-paused thread's event processor; paused threads are skipped. -/
def OnWriteChatColor (m : Matcher) (line : String) (running : List LuaThread) :
    List LuaThread :=
  running.map fun t =>
    if t.paused then t
    else { t with eventProcessor := process m line t.eventProcessor }

/-- `OnIncomingChat` (`MQ2Lua.cpp:1610`): same delivery loop as
`OnWriteChatColor`, returning `false` to the host. -/
def OnIncomingChat (m : Matcher) (line : String) (running : List LuaThread) :
    List LuaThread × Bool :=
  (running.map fun t =>
    if t.paused then t
    else { t with eventProcessor := process m line t.eventProcessor }, false)

/-- Digits at the front of the character list (what `std::from_chars`
consumes). -/
def leadingDigits (cs : List Char) : List Char := cs.takeWhile Char.isDigit

/-- Numeric value of a digit string. -/
def digitsToNat (ds : List Char) : Nat :=
  ds.foldl (fun acc c => acc * 10 + (c.toNat - 48)) 0

/-- `std::from_chars` on a character list: the leading digit run, or
failure when there is none. -/
def fromChars (cs : List Char) : Option Nat :=
  let ds := leadingDigits cs
  if ds.isEmpty then none else some (digitsToNat ds)

/-- The `infoGC` interval parsing of `ReadSettings` (`MQ2Lua.cpp:675`), on
the already-trimmed setting string, with `cur` the value `s_infoGC` held
before: a multi-character all-digit string is taken verbatim; an `h`, `m`
or `s` suffix scales by 3600000, 60000 or 1000 (a failed prefix parse
leaves the local `result` at 0); an `ms` suffix takes the prefix verbatim
(a failed parse leaves `s_infoGC` unchanged); anything else — including a
single character — leaves the value unchanged. -/
def parseGCInterval (cur : Nat) (s : String) : Nat :=
  let cs := s.toList
  if 1 < cs.length ∧ cs.all Char.isDigit then
    (fromChars cs).getD cur
  else if 1 < cs.length ∧ cs.getLast? = some 'h' then
    ((fromChars cs.dropLast).getD 0) * 3600000
  else if 1 < cs.length ∧ cs.getLast? = some 'm' then
    ((fromChars cs.dropLast).getD 0) * 60000
  else if 2 < cs.length ∧ cs.getLast? = some 's' ∧ cs.dropLast.getLast? = some 'm' then
    (fromChars cs.dropLast.dropLast).getD cur
  else if 1 < cs.length ∧ cs.getLast? = some 's' then
    ((fromChars cs.dropLast).getD 0) * 1000
  else cur

/-- The plugin's state right after `InitializePlugin`: nothing running, an
empty registry, and `OnPulse`'s static checkpoint initialised to the first
observed time `t₀`.  Pids start at 1 (`0` is `LuaRunCommand`'s failure
return, so no thread uses it). -/
def initialState (t₀ : Nat) : PluginState := ⟨[], [], 1, t₀⟩

/-- States reachable through the command surface: launches (`/lua run`),
stops, pause toggles, and heartbeat pulses.  `now` values are positive
(`time_t` wall-clock readings). -/
inductive Reachable (infoGC : Nat) : PluginState → Prop where
  | init (t₀ : Nat) : Reachable infoGC (initialState t₀)
  | launch {st : PluginState} (script : String) (args : List String)
      (fileExists : Bool) (now : Nat) (hnow : 0 < now) :
      Reachable infoGC st →
      Reachable infoGC (LuaRunCommand st script args fileExists now).1
  | stop {st : PluginState} (target : Nat ⊕ String) :
      Reachable infoGC st → Reachable infoGC (LuaStopCommand st target)
  | stopAll {st : PluginState} :
      Reachable infoGC st → Reachable infoGC (LuaStopAllCommand st)
  | pause {st : PluginState} (target : Nat ⊕ String) :
      Reachable infoGC st → Reachable infoGC (LuaPauseCommand st target)
  | pauseAll {st : PluginState} :
      Reachable infoGC st → Reachable infoGC (LuaPauseAllCommand st)
  | pulse {st : PluginState} (beh : Nat → RunOutcome) (now : Nat)
      (hnow : 0 < now) :
      Reachable infoGC st → Reachable infoGC (OnPulse beh now infoGC st).1

/-! ### Association-list and thread-list helper lemmas -/

theorem entry_eq_of_key_eq {m : List (Nat × LuaThreadInfo)}
    (hnd : (m.map Prod.fst).Nodup) {kv kv' : Nat × LuaThreadInfo}
    (h : kv ∈ m) (h' : kv' ∈ m) (hk : kv.1 = kv'.1) : kv = kv' :=
  List.inj_on_of_nodup_map hnd h h' hk

theorem entry_eq_of_path_eq {m : List (Nat × LuaThreadInfo)}
    (hnd : (m.map fun kv => kv.2.path).Nodup) {kv kv' : Nat × LuaThreadInfo}
    (h : kv ∈ m) (h' : kv' ∈ m) (hk : kv.2.path = kv'.2.path) : kv = kv' :=
  List.inj_on_of_nodup_map hnd h h' hk

theorem updateInfoFirst_map_fst (k : Nat) (f : LuaThreadInfo → LuaThreadInfo) :
    ∀ m : List (Nat × LuaThreadInfo),
      (updateInfoFirst k f m).map Prod.fst = m.map Prod.fst
  | [] => rfl
  | kv :: rest => by
    simp only [updateInfoFirst]
    split
    · simp
    · simp [updateInfoFirst_map_fst k f rest]

theorem updateInfoFirst_map_path (k : Nat) (f : LuaThreadInfo → LuaThreadInfo)
    (hf : ∀ i, (f i).path = i.path) :
    ∀ m : List (Nat × LuaThreadInfo),
      (updateInfoFirst k f m).map (fun kv => kv.2.path) =
        m.map fun kv => kv.2.path
  | [] => rfl
  | kv :: rest => by
    simp only [updateInfoFirst]
    split
    · simp [hf]
    · simp [updateInfoFirst_map_path k f hf rest]

theorem mem_updateInfoFirst_of_ne (k : Nat) (f : LuaThreadInfo → LuaThreadInfo) :
    ∀ (m : List (Nat × LuaThreadInfo)) (kv : Nat × LuaThreadInfo),
      kv ∈ m → kv.1 ≠ k → kv ∈ updateInfoFirst k f m
  | kv₀ :: rest, kv, hmem, hne => by
    rcases List.mem_cons.1 hmem with h | h
    · have hb : (kv₀.1 == k) = false := by
        rw [← h]
        exact beq_eq_false_iff_ne.2 hne
      simp [updateInfoFirst, hb, h]
    · simp only [updateInfoFirst]
      split
      · exact List.mem_cons_of_mem _ h
      · exact List.mem_cons_of_mem _ (mem_updateInfoFirst_of_ne k f rest kv h hne)

theorem mem_updateInfoFirst_self (k : Nat) (f : LuaThreadInfo → LuaThreadInfo) :
    ∀ (m : List (Nat × LuaThreadInfo)) (i : LuaThreadInfo),
      (m.map Prod.fst).Nodup → (k, i) ∈ m → (k, f i) ∈ updateInfoFirst k f m
  | kv₀ :: rest, i, hnd, hmem => by
    rw [List.map_cons, List.nodup_cons] at hnd
    rcases List.mem_cons.1 hmem with h | h
    · rw [← h]
      simp [updateInfoFirst]
    · have hk : k ∈ rest.map Prod.fst := List.mem_map.2 ⟨(k, i), h, rfl⟩
      have hne : kv₀.1 ≠ k := fun he => hnd.1 (he ▸ hk)
      have hb : (kv₀.1 == k) = false := beq_eq_false_iff_ne.2 hne
      simp only [updateInfoFirst, hb]
      exact List.mem_cons_of_mem _
        (mem_updateInfoFirst_self k f rest i hnd.2 h)

theorem mem_updateInfoFirst_cases (k : Nat) (f : LuaThreadInfo → LuaThreadInfo) :
    ∀ (m : List (Nat × LuaThreadInfo)) (kv : Nat × LuaThreadInfo),
      kv ∈ updateInfoFirst k f m →
      kv ∈ m ∨ ∃ i, (k, i) ∈ m ∧ kv = (k, f i)
  | [], kv, h => absurd h (List.not_mem_nil kv)
  | (k₀, i₀) :: rest, kv, h => by
    by_cases hb : (k₀ == k) = true
    · have hk : k₀ = k := by simpa using hb
      subst hk
      simp only [updateInfoFirst, hb, if_pos] at h
      rcases List.mem_cons.1 h with h | h
      · exact Or.inr ⟨i₀, List.mem_cons_self _ _, h⟩
      · exact Or.inl (List.mem_cons_of_mem _ h)
    · rw [Bool.not_eq_true] at hb
      simp only [updateInfoFirst, hb, Bool.false_eq_true, if_false] at h
      rcases List.mem_cons.1 h with h | h
      · exact Or.inl (h ▸ List.mem_cons_self _ _)
      · rcases mem_updateInfoFirst_cases k f rest kv h with h' | ⟨i, hi, he⟩
        · exact Or.inl (List.mem_cons_of_mem _ h')
        · exact Or.inr ⟨i, List.mem_cons_of_mem _ hi, he⟩

theorem emplace_of_fresh (k : Nat) (v : LuaThreadInfo)
    (m : List (Nat × LuaThreadInfo)) (h : k ∉ m.map Prod.fst) :
    emplace k v m = m ++ [(k, v)] := by
  have hany : (m.any fun kv => kv.1 == k) = false := by
    rw [List.any_eq_false]
    intro kv hkv
    simp only [ne_eq, beq_iff_eq]
    intro he
    exact h (List.mem_map.2 ⟨kv, hkv, he⟩)
  simp [emplace, hany]

theorem eraseP_path_ne (s : String) :
    ∀ m : List (Nat × LuaThreadInfo),
      (m.map fun kv => kv.2.path).Nodup →
      ∀ kv ∈ m.eraseP fun kv => kv.2.path == s, kv.2.path ≠ s
  | [], _, kv, hmem => absurd hmem (List.not_mem_nil kv)
  | kv₀ :: rest, hnd, kv, hmem => by
    rw [List.map_cons, List.nodup_cons] at hnd
    by_cases hb : (kv₀.2.path == s) = true
    · rw [List.eraseP_cons, hb, cond_true] at hmem
      have hs : kv₀.2.path = s := by simpa using hb
      intro he
      exact hnd.1 (hs ▸ he ▸ List.mem_map.2 ⟨kv, hmem, rfl⟩)
    · rw [Bool.not_eq_true] at hb
      rw [List.eraseP_cons, hb, cond_false] at hmem
      rcases List.mem_cons.1 hmem with h | h
      · rw [h]
        simpa using hb
      · exact eraseP_path_ne s rest hnd.2 kv h

theorem mem_eraseP_of_path_ne (s : String) :
    ∀ m : List (Nat × LuaThreadInfo), ∀ kv : Nat × LuaThreadInfo,
      kv ∈ m → kv.2.path ≠ s → kv ∈ m.eraseP fun kv => kv.2.path == s
  | kv₀ :: rest, kv, hmem, hne => by
    by_cases hb : (kv₀.2.path == s) = true
    · rw [List.eraseP_cons, hb, cond_true]
      rcases List.mem_cons.1 hmem with h | h
      · exact absurd (by rw [h]; simpa using hb) hne
      · exact h
    · rw [Bool.not_eq_true] at hb
      rw [List.eraseP_cons, hb, cond_false]
      rcases List.mem_cons.1 hmem with h | h
      · exact h ▸ List.mem_cons_self _ _
      · exact List.mem_cons_of_mem _ (mem_eraseP_of_path_ne s rest kv h hne)

theorem find_path_unique (s : String) :
    ∀ m : List (Nat × LuaThreadInfo), ∀ kv : Nat × LuaThreadInfo,
      (m.map fun kv => kv.2.path).Nodup → kv ∈ m → kv.2.path = s →
      (m.find? fun kv => kv.2.path == s) = some kv
  | kv₀ :: rest, kv, hnd, hmem, hpath => by
    rw [List.map_cons, List.nodup_cons] at hnd
    by_cases hb : (kv₀.2.path == s) = true
    · rw [List.find?_cons, hb]
      rcases List.mem_cons.1 hmem with h | h
      · rw [h]
      · have hs : kv₀.2.path = s := by simpa using hb
        exact absurd (hs ▸ hpath ▸ List.mem_map.2 ⟨kv, h, rfl⟩) hnd.1
    · rw [Bool.not_eq_true] at hb
      rw [List.find?_cons, hb]
      rcases List.mem_cons.1 hmem with h | h
      · exfalso
        rw [h] at hpath
        rw [hpath] at hb
        simp at hb
      · exact find_path_unique s rest kv hnd.2 h hpath

theorem stopFirst_map_pid (sel : LuaThread → Bool) :
    ∀ l : List LuaThread, (stopFirst sel l).map (fun t => t.pid) = l.map fun t => t.pid
  | [] => rfl
  | t :: ts => by
    simp only [stopFirst]
    split
    · simp [stopThread]
    · simp [stopFirst_map_pid sel ts]

theorem pauseFirst_map_pid (sel : LuaThread → Bool) :
    ∀ l : List LuaThread, (pauseFirst sel l).1.map (fun t => t.pid) = l.map fun t => t.pid
  | [] => rfl
  | t :: ts => by
    simp only [pauseFirst]
    split
    · simp [pauseThread]
    · simp [pauseFirst_map_pid sel ts]

theorem pauseStatus_ne_exited (t : LuaThread) :
    pauseStatus t ≠ LuaThreadStatus.Exited := by
  cases h : t.paused <;> simp [pauseStatus, h]

theorem pauseFirst_status (sel : LuaThread → Bool) :
    ∀ l : List LuaThread, ∀ p : Nat, ∀ s : LuaThreadStatus,
      (pauseFirst sel l).2 = some (p, s) → s ≠ LuaThreadStatus.Exited
  | [], p, s, h => by simp [pauseFirst] at h
  | t :: ts, p, s, h => by
    revert h
    simp only [pauseFirst]
    split
    · intro h
      have : s = pauseStatus (pauseThread t) :=
        (by simpa using congrArg (fun o => (Option.map Prod.snd o).getD s) h :
          pauseStatus (pauseThread t) = s).symm
      exact this ▸ pauseStatus_ne_exited _
    · exact pauseFirst_status sel ts p s

/-! ### Pulse-loop helper lemmas -/

theorem pulseThreads_cons_abandoned (beh : Nat → RunOutcome) (now : Nat)
    (t : LuaThread) (ts : List LuaThread) (m : List (Nat × LuaThreadInfo))
    (ha : t.abandoned = true) :
    pulseThreads beh now (t :: ts) m =
      { pulseThreads beh now ts (updateInfoFirst t.pid (EndRun now) m) with
          ended := t.pid ::
            (pulseThreads beh now ts (updateInfoFirst t.pid (EndRun now) m)).ended } := by
  simp [pulseThreads, ha]

theorem pulseThreads_cons_yielded (beh : Nat → RunOutcome) (now : Nat)
    (t : LuaThread) (ts : List LuaThread) (m : List (Nat × LuaThreadInfo))
    (ha : t.abandoned = false) (hro : runOutcome beh t = RunOutcome.yielded) :
    pulseThreads beh now (t :: ts) m =
      { pulseThreads beh now ts m with
          running := t :: (pulseThreads beh now ts m).running,
          resumed := t.pid :: (pulseThreads beh now ts m).resumed } := by
  simp [pulseThreads, ha, hro]

theorem pulseThreads_cons_completed (beh : Nat → RunOutcome) (now : Nat)
    (t : LuaThread) (ts : List LuaThread) (m : List (Nat × LuaThreadInfo))
    (rv : List String)
    (ha : t.abandoned = false) (hro : runOutcome beh t = RunOutcome.completed rv) :
    pulseThreads beh now (t :: ts) m =
      { pulseThreads beh now ts (updateInfoFirst t.pid (SetResult now rv) m) with
          resumed := t.pid ::
            (pulseThreads beh now ts (updateInfoFirst t.pid (SetResult now rv) m)).resumed,
          ended := t.pid ::
            (pulseThreads beh now ts (updateInfoFirst t.pid (SetResult now rv) m)).ended } := by
  simp [pulseThreads, ha, hro]

theorem pulseThreads_cons_faulted (beh : Nat → RunOutcome) (now : Nat)
    (t : LuaThread) (ts : List LuaThread) (m : List (Nat × LuaThreadInfo))
    (ha : t.abandoned = false) (hro : runOutcome beh t = RunOutcome.faulted) :
    pulseThreads beh now (t :: ts) m =
      { pulseThreads beh now ts (updateInfoFirst t.pid (EndRun now) m) with
          resumed := t.pid ::
            (pulseThreads beh now ts (updateInfoFirst t.pid (EndRun now) m)).resumed,
          ended := t.pid ::
            (pulseThreads beh now ts (updateInfoFirst t.pid (EndRun now) m)).ended } := by
  simp [pulseThreads, ha, hro]

theorem pulseThreads_map_fst (beh : Nat → RunOutcome) (now : Nat) :
    ∀ (ts : List LuaThread) (m : List (Nat × LuaThreadInfo)),
      ((pulseThreads beh now ts m).infoMap).map Prod.fst = m.map Prod.fst
  | [], _ => rfl
  | t :: ts, m => by
    cases ha : t.abandoned with
    | true =>
      rw [pulseThreads_cons_abandoned beh now t ts m ha]
      have hrec := pulseThreads_map_fst beh now ts (updateInfoFirst t.pid (EndRun now) m)
      rw [updateInfoFirst_map_fst] at hrec
      exact hrec
    | false =>
      cases hro : runOutcome beh t with
      | yielded =>
        rw [pulseThreads_cons_yielded beh now t ts m ha hro]
        exact pulseThreads_map_fst beh now ts m
      | completed rv =>
        rw [pulseThreads_cons_completed beh now t ts m rv ha hro]
        have hrec := pulseThreads_map_fst beh now ts
          (updateInfoFirst t.pid (SetResult now rv) m)
        rw [updateInfoFirst_map_fst] at hrec
        exact hrec
      | faulted =>
        rw [pulseThreads_cons_faulted beh now t ts m ha hro]
        have hrec := pulseThreads_map_fst beh now ts
          (updateInfoFirst t.pid (EndRun now) m)
        rw [updateInfoFirst_map_fst] at hrec
        exact hrec

theorem pulseThreads_map_path (beh : Nat → RunOutcome) (now : Nat) :
    ∀ (ts : List LuaThread) (m : List (Nat × LuaThreadInfo)),
      ((pulseThreads beh now ts m).infoMap).map (fun kv => kv.2.path) =
        m.map fun kv => kv.2.path
  | [], _ => rfl
  | t :: ts, m => by
    cases ha : t.abandoned with
    | true =>
      rw [pulseThreads_cons_abandoned beh now t ts m ha]
      have hrec := pulseThreads_map_path beh now ts (updateInfoFirst t.pid (EndRun now) m)
      rw [updateInfoFirst_map_path t.pid (EndRun now) (fun _ => rfl)] at hrec
      exact hrec
    | false =>
      cases hro : runOutcome beh t with
      | yielded =>
        rw [pulseThreads_cons_yielded beh now t ts m ha hro]
        exact pulseThreads_map_path beh now ts m
      | completed rv =>
        rw [pulseThreads_cons_completed beh now t ts m rv ha hro]
        have hrec := pulseThreads_map_path beh now ts
          (updateInfoFirst t.pid (SetResult now rv) m)
        rw [updateInfoFirst_map_path t.pid (SetResult now rv) (fun _ => rfl)] at hrec
        exact hrec
      | faulted =>
        rw [pulseThreads_cons_faulted beh now t ts m ha hro]
        have hrec := pulseThreads_map_path beh now ts
          (updateInfoFirst t.pid (EndRun now) m)
        rw [updateInfoFirst_map_path t.pid (EndRun now) (fun _ => rfl)] at hrec
        exact hrec

theorem pulseThreads_running_sublist (beh : Nat → RunOutcome) (now : Nat) :
    ∀ (ts : List LuaThread) (m : List (Nat × LuaThreadInfo)),
      List.Sublist (pulseThreads beh now ts m).running ts
  | [], _ => List.Sublist.refl _
  | t :: ts, m => by
    cases ha : t.abandoned with
    | true =>
      rw [pulseThreads_cons_abandoned beh now t ts m ha]
      exact List.Sublist.trans (pulseThreads_running_sublist beh now ts _)
        (List.sublist_cons_self t ts)
    | false =>
      cases hro : runOutcome beh t with
      | yielded =>
        rw [pulseThreads_cons_yielded beh now t ts m ha hro]
        exact List.Sublist.cons₂ t (pulseThreads_running_sublist beh now ts m)
      | completed rv =>
        rw [pulseThreads_cons_completed beh now t ts m rv ha hro]
        exact List.Sublist.trans (pulseThreads_running_sublist beh now ts _)
          (List.sublist_cons_self t ts)
      | faulted =>
        rw [pulseThreads_cons_faulted beh now t ts m ha hro]
        exact List.Sublist.trans (pulseThreads_running_sublist beh now ts _)
          (List.sublist_cons_self t ts)

theorem mem_pulseThreads_running (beh : Nat → RunOutcome) (now : Nat) :
    ∀ (ts : List LuaThread) (m : List (Nat × LuaThreadInfo))
      (t' : LuaThread), t' ∈ (pulseThreads beh now ts m).running →
      t' ∈ ts ∧ t'.abandoned = false ∧ runOutcome beh t' = RunOutcome.yielded
  | [], _, t', h => absurd h (List.not_mem_nil t')
  | t :: ts, m, t', h => by
    cases ha : t.abandoned with
    | true =>
      rw [pulseThreads_cons_abandoned beh now t ts m ha] at h
      obtain ⟨h₁, h₂, h₃⟩ := mem_pulseThreads_running beh now ts _ t' h
      exact ⟨List.mem_cons_of_mem _ h₁, h₂, h₃⟩
    | false =>
      cases hro : runOutcome beh t with
      | yielded =>
        rw [pulseThreads_cons_yielded beh now t ts m ha hro] at h
        rcases List.mem_cons.1 h with h | h
        · exact ⟨h ▸ List.mem_cons_self _ _, h ▸ ha, h ▸ hro⟩
        · obtain ⟨h₁, h₂, h₃⟩ := mem_pulseThreads_running beh now ts m t' h
          exact ⟨List.mem_cons_of_mem _ h₁, h₂, h₃⟩
      | completed rv =>
        rw [pulseThreads_cons_completed beh now t ts m rv ha hro] at h
        obtain ⟨h₁, h₂, h₃⟩ := mem_pulseThreads_running beh now ts _ t' h
        exact ⟨List.mem_cons_of_mem _ h₁, h₂, h₃⟩
      | faulted =>
        rw [pulseThreads_cons_faulted beh now t ts m ha hro] at h
        obtain ⟨h₁, h₂, h₃⟩ := mem_pulseThreads_running beh now ts _ t' h
        exact ⟨List.mem_cons_of_mem _ h₁, h₂, h₃⟩

theorem pulseThreads_keeps_yielded (beh : Nat → RunOutcome) (now : Nat) :
    ∀ (ts : List LuaThread) (m : List (Nat × LuaThreadInfo)) (t' : LuaThread),
      t' ∈ ts → t'.abandoned = false → runOutcome beh t' = RunOutcome.yielded →
      t' ∈ (pulseThreads beh now ts m).running
  | [], _, t', h, _, _ => absurd h (List.not_mem_nil t')
  | t :: ts, m, t', hmem, hab, hro' => by
    rcases List.mem_cons.1 hmem with h | h
    · subst h
      rw [pulseThreads_cons_yielded beh now t' ts m hab hro']
      exact List.mem_cons_self _ _
    · cases ha : t.abandoned with
      | true =>
        rw [pulseThreads_cons_abandoned beh now t ts m ha]
        exact pulseThreads_keeps_yielded beh now ts _ t' h hab hro'
      | false =>
        cases hro : runOutcome beh t with
        | yielded =>
          rw [pulseThreads_cons_yielded beh now t ts m ha hro]
          exact List.mem_cons_of_mem _
            (pulseThreads_keeps_yielded beh now ts m t' h hab hro')
        | completed rv =>
          rw [pulseThreads_cons_completed beh now t ts m rv ha hro]
          exact pulseThreads_keeps_yielded beh now ts _ t' h hab hro'
        | faulted =>
          rw [pulseThreads_cons_faulted beh now t ts m ha hro]
          exact pulseThreads_keeps_yielded beh now ts _ t' h hab hro'

theorem pulseThreads_untouched (beh : Nat → RunOutcome) (now : Nat) :
    ∀ (ts : List LuaThread) (m : List (Nat × LuaThreadInfo)) (k : Nat)
      (i : LuaThreadInfo), (k, i) ∈ m →
      (∀ u ∈ ts, u.pid = k →
        u.abandoned = false ∧ runOutcome beh u = RunOutcome.yielded) →
      (k, i) ∈ (pulseThreads beh now ts m).infoMap
  | [], _, _, _, hmem, _ => hmem
  | t :: ts, m, k, i, hmem, hstay => by
    have hstay' : ∀ u ∈ ts, u.pid = k →
        u.abandoned = false ∧ runOutcome beh u = RunOutcome.yielded :=
      fun u hu => hstay u (List.mem_cons_of_mem _ hu)
    cases ha : t.abandoned with
    | true =>
      have hne : t.pid ≠ k := by
        intro he
        exact absurd ha (by rw [(hstay t (List.mem_cons_self _ _) he).1]; simp)
      rw [pulseThreads_cons_abandoned beh now t ts m ha]
      exact pulseThreads_untouched beh now ts _ k i
        (mem_updateInfoFirst_of_ne t.pid (EndRun now) m (k, i) hmem
          (fun he => hne he.symm)) hstay'
    | false =>
      cases hro : runOutcome beh t with
      | yielded =>
        rw [pulseThreads_cons_yielded beh now t ts m ha hro]
        exact pulseThreads_untouched beh now ts m k i hmem hstay'
      | completed rv =>
        have hne : t.pid ≠ k := by
          intro he
          exact absurd hro (by rw [(hstay t (List.mem_cons_self _ _) he).2]; simp)
        rw [pulseThreads_cons_completed beh now t ts m rv ha hro]
        exact pulseThreads_untouched beh now ts _ k i
          (mem_updateInfoFirst_of_ne t.pid (SetResult now rv) m (k, i) hmem
            (fun he => hne he.symm)) hstay'
      | faulted =>
        have hne : t.pid ≠ k := by
          intro he
          exact absurd hro (by rw [(hstay t (List.mem_cons_self _ _) he).2]; simp)
        rw [pulseThreads_cons_faulted beh now t ts m ha hro]
        exact pulseThreads_untouched beh now ts _ k i
          (mem_updateInfoFirst_of_ne t.pid (EndRun now) m (k, i) hmem
            (fun he => hne he.symm)) hstay'

theorem pulseThreads_stable_exited (beh : Nat → RunOutcome) (now : Nat) :
    ∀ (ts : List LuaThread) (m : List (Nat × LuaThreadInfo)) (k : Nat)
      (i : LuaThreadInfo), (m.map Prod.fst).Nodup → (k, i) ∈ m →
      i.endTime = now → i.status = LuaThreadStatus.Exited →
      ∃ i', (k, i') ∈ (pulseThreads beh now ts m).infoMap ∧
        i'.endTime = now ∧ i'.status = LuaThreadStatus.Exited
  | [], _, k, i, _, hmem, he, hs => ⟨i, hmem, he, hs⟩
  | t :: ts, m, k, i, hnd, hmem, he, hs => by
    have hnd' : ∀ f, ((updateInfoFirst t.pid f m).map Prod.fst).Nodup := by
      intro f
      rw [updateInfoFirst_map_fst]
      exact hnd
    have hkeep : ∀ f : LuaThreadInfo → LuaThreadInfo,
        (∀ j, (f j).endTime = now ∧ (f j).status = LuaThreadStatus.Exited) →
        ∃ i', (k, i') ∈ updateInfoFirst t.pid f m ∧
          i'.endTime = now ∧ i'.status = LuaThreadStatus.Exited := by
      intro f hf
      by_cases hk : t.pid = k
      · subst hk
        exact ⟨f i, mem_updateInfoFirst_self t.pid f m i hnd hmem,
          (hf i).1, (hf i).2⟩
      · exact ⟨i, mem_updateInfoFirst_of_ne t.pid f m (k, i) hmem
          (fun hh => hk hh.symm), he, hs⟩
    cases ha : t.abandoned with
    | true =>
      rw [pulseThreads_cons_abandoned beh now t ts m ha]
      obtain ⟨i₁, hm₁, he₁, hs₁⟩ := hkeep (EndRun now) (fun j => ⟨rfl, rfl⟩)
      exact pulseThreads_stable_exited beh now ts _ k i₁ (hnd' _) hm₁ he₁ hs₁
    | false =>
      cases hro : runOutcome beh t with
      | yielded =>
        rw [pulseThreads_cons_yielded beh now t ts m ha hro]
        exact pulseThreads_stable_exited beh now ts m k i hnd hmem he hs
      | completed rv =>
        rw [pulseThreads_cons_completed beh now t ts m rv ha hro]
        obtain ⟨i₁, hm₁, he₁, hs₁⟩ := hkeep (SetResult now rv) (fun j => ⟨rfl, rfl⟩)
        exact pulseThreads_stable_exited beh now ts _ k i₁ (hnd' _) hm₁ he₁ hs₁
      | faulted =>
        rw [pulseThreads_cons_faulted beh now t ts m ha hro]
        obtain ⟨i₁, hm₁, he₁, hs₁⟩ := hkeep (EndRun now) (fun j => ⟨rfl, rfl⟩)
        exact pulseThreads_stable_exited beh now ts _ k i₁ (hnd' _) hm₁ he₁ hs₁

theorem pulseThreads_ended_record (beh : Nat → RunOutcome) (now : Nat) :
    ∀ (ts : List LuaThread) (m : List (Nat × LuaThreadInfo)) (t : LuaThread)
      (i : LuaThreadInfo), (m.map Prod.fst).Nodup → t ∈ ts → (t.pid, i) ∈ m →
      (t.abandoned = true ∨ runOutcome beh t ≠ RunOutcome.yielded) →
      ∃ i', (t.pid, i') ∈ (pulseThreads beh now ts m).infoMap ∧
        i'.endTime = now ∧ i'.status = LuaThreadStatus.Exited
  | [], _, t, _, _, hmem, _, _ => absurd hmem (List.not_mem_nil t)
  | u :: ts, m, t, i, hnd, hmem, hrec, hend => by
    have hnd' : ∀ f, ((updateInfoFirst u.pid f m).map Prod.fst).Nodup := by
      intro f
      rw [updateInfoFirst_map_fst]
      exact hnd
    have hself : ∀ f : LuaThreadInfo → LuaThreadInfo,
        (∀ j, (f j).endTime = now ∧ (f j).status = LuaThreadStatus.Exited) →
        u.pid = t.pid →
        ∃ i', (t.pid, i') ∈ (pulseThreads beh now ts (updateInfoFirst u.pid f m)).infoMap ∧
          i'.endTime = now ∧ i'.status = LuaThreadStatus.Exited := by
      intro f hf hpid
      have hm₁ : (t.pid, f i) ∈ updateInfoFirst u.pid f m := by
        rw [hpid]
        exact mem_updateInfoFirst_self t.pid f m i hnd hrec
      exact pulseThreads_stable_exited beh now ts _ t.pid (f i) (hnd' _) hm₁
        (hf i).1 (hf i).2
    have hother : ∀ f : LuaThreadInfo → LuaThreadInfo,
        (∀ j, (f j).endTime = now ∧ (f j).status = LuaThreadStatus.Exited) →
        t ∈ ts →
        ∃ i', (t.pid, i') ∈ (pulseThreads beh now ts (updateInfoFirst u.pid f m)).infoMap ∧
          i'.endTime = now ∧ i'.status = LuaThreadStatus.Exited := by
      intro f hf hts
      by_cases hpid : u.pid = t.pid
      · exact hself f hf hpid
      · exact pulseThreads_ended_record beh now ts _ t i (hnd' _) hts
          (mem_updateInfoFirst_of_ne u.pid f m (t.pid, i) hrec
            (fun hh => hpid hh.symm)) hend
    cases ha : u.abandoned with
    | true =>
      rw [pulseThreads_cons_abandoned beh now u ts m ha]
      rcases List.mem_cons.1 hmem with h | h
      · exact hself (EndRun now) (fun j => ⟨rfl, rfl⟩) (by rw [h])
      · exact hother (EndRun now) (fun j => ⟨rfl, rfl⟩) h
    | false =>
      cases hro : runOutcome beh u with
      | yielded =>
        rw [pulseThreads_cons_yielded beh now u ts m ha hro]
        rcases List.mem_cons.1 hmem with h | h
        · exfalso
          subst h
          rcases hend with hend | hend
          · exact absurd ha (by rw [hend]; simp)
          · exact hend hro
        · exact pulseThreads_ended_record beh now ts m t i hnd h hrec hend
      | completed rv =>
        rw [pulseThreads_cons_completed beh now u ts m rv ha hro]
        rcases List.mem_cons.1 hmem with h | h
        · exact hself (SetResult now rv) (fun j => ⟨rfl, rfl⟩) (by rw [h])
        · exact hother (SetResult now rv) (fun j => ⟨rfl, rfl⟩) h
      | faulted =>
        rw [pulseThreads_cons_faulted beh now u ts m ha hro]
        rcases List.mem_cons.1 hmem with h | h
        · exact hself (EndRun now) (fun j => ⟨rfl, rfl⟩) (by rw [h])
        · exact hother (EndRun now) (fun j => ⟨rfl, rfl⟩) h

theorem mem_pulseThreads_infoMap (beh : Nat → RunOutcome) (now : Nat) :
    ∀ (ts : List LuaThread) (m : List (Nat × LuaThreadInfo))
      (kv : Nat × LuaThreadInfo), kv ∈ (pulseThreads beh now ts m).infoMap →
      kv ∈ m ∨ kv.2.endTime = now
  | [], _, _, h => Or.inl h
  | t :: ts, m, kv, h => by
    have hstep : ∀ f : LuaThreadInfo → LuaThreadInfo,
        (∀ j, (f j).endTime = now) →
        kv ∈ (pulseThreads beh now ts (updateInfoFirst t.pid f m)).infoMap →
        kv ∈ m ∨ kv.2.endTime = now := by
      intro f hf hm
      rcases mem_pulseThreads_infoMap beh now ts _ kv hm with hm | hm
      · rcases mem_updateInfoFirst_cases t.pid f m kv hm with hm | ⟨j, _, he⟩
        · exact Or.inl hm
        · right
          rw [he]
          exact hf j
      · exact Or.inr hm
    cases ha : t.abandoned with
    | true =>
      rw [pulseThreads_cons_abandoned beh now t ts m ha] at h
      exact hstep (EndRun now) (fun _ => rfl) h
    | false =>
      cases hro : runOutcome beh t with
      | yielded =>
        rw [pulseThreads_cons_yielded beh now t ts m ha hro] at h
        exact mem_pulseThreads_infoMap beh now ts m kv h
      | completed rv =>
        rw [pulseThreads_cons_completed beh now t ts m rv ha hro] at h
        exact hstep (SetResult now rv) (fun _ => rfl) h
      | faulted =>
        rw [pulseThreads_cons_faulted beh now t ts m ha hro] at h
        exact hstep (EndRun now) (fun _ => rfl) h

theorem pulseThreads_resumed (beh : Nat → RunOutcome) (now : Nat) :
    ∀ (ts : List LuaThread) (m : List (Nat × LuaThreadInfo)) (t : LuaThread),
      t ∈ ts → t.abandoned = false →
      t.pid ∈ (pulseThreads beh now ts m).resumed
  | [], _, t, h, _ => absurd h (List.not_mem_nil t)
  | u :: ts, m, t, hmem, hab => by
    rcases List.mem_cons.1 hmem with h | h
    · subst h
      cases hro : runOutcome beh t with
      | yielded =>
        rw [pulseThreads_cons_yielded beh now t ts m hab hro]
        exact List.mem_cons_self _ _
      | completed rv =>
        rw [pulseThreads_cons_completed beh now t ts m rv hab hro]
        exact List.mem_cons_self _ _
      | faulted =>
        rw [pulseThreads_cons_faulted beh now t ts m hab hro]
        exact List.mem_cons_self _ _
    · cases ha : u.abandoned with
      | true =>
        rw [pulseThreads_cons_abandoned beh now u ts m ha]
        exact pulseThreads_resumed beh now ts _ t h hab
      | false =>
        cases hro : runOutcome beh u with
        | yielded =>
          rw [pulseThreads_cons_yielded beh now u ts m ha hro]
          exact List.mem_cons_of_mem _ (pulseThreads_resumed beh now ts m t h hab)
        | completed rv =>
          rw [pulseThreads_cons_completed beh now u ts m rv ha hro]
          exact List.mem_cons_of_mem _ (pulseThreads_resumed beh now ts _ t h hab)
        | faulted =>
          rw [pulseThreads_cons_faulted beh now u ts m ha hro]
          exact List.mem_cons_of_mem _ (pulseThreads_resumed beh now ts _ t h hab)

theorem pulseThreads_ended_log (beh : Nat → RunOutcome) (now : Nat) :
    ∀ (ts : List LuaThread) (m : List (Nat × LuaThreadInfo)) (t : LuaThread),
      t ∈ ts → (t.abandoned = true ∨ runOutcome beh t ≠ RunOutcome.yielded) →
      t.pid ∈ (pulseThreads beh now ts m).ended
  | [], _, t, h, _ => absurd h (List.not_mem_nil t)
  | u :: ts, m, t, hmem, hend => by
    rcases List.mem_cons.1 hmem with h | h
    · subst h
      cases ha : t.abandoned with
      | true =>
        rw [pulseThreads_cons_abandoned beh now t ts m ha]
        exact List.mem_cons_self _ _
      | false =>
        cases hro : runOutcome beh t with
        | yielded =>
          exfalso
          rcases hend with hend | hend
          · exact absurd ha (by rw [hend]; simp)
          · exact hend hro
        | completed rv =>
          rw [pulseThreads_cons_completed beh now t ts m rv ha hro]
          exact List.mem_cons_self _ _
        | faulted =>
          rw [pulseThreads_cons_faulted beh now t ts m ha hro]
          exact List.mem_cons_self _ _
    · cases ha : u.abandoned with
      | true =>
        rw [pulseThreads_cons_abandoned beh now u ts m ha]
        exact List.mem_cons_of_mem _ (pulseThreads_ended_log beh now ts _ t h hend)
      | false =>
        cases hro : runOutcome beh u with
        | yielded =>
          rw [pulseThreads_cons_yielded beh now u ts m ha hro]
          exact pulseThreads_ended_log beh now ts m t h hend
        | completed rv =>
          rw [pulseThreads_cons_completed beh now u ts m rv ha hro]
          exact List.mem_cons_of_mem _ (pulseThreads_ended_log beh now ts _ t h hend)
        | faulted =>
          rw [pulseThreads_cons_faulted beh now u ts m ha hro]
          exact List.mem_cons_of_mem _ (pulseThreads_ended_log beh now ts _ t h hend)

/-! ### The live-set / registry agreement invariant (C1) -/

/-- The strengthened inductive invariant tying `s_running` to `s_infoMap`:
distinct pids in the live list, distinct keys and distinct paths in the
registry, pid freshness bounds, and the two agreement directions — every
live thread owns a registry record that is still open (`endTime == 0`, not
`Exited`), and every open record belongs to a live thread. -/
structure Invariant (st : PluginState) : Prop where
  runNodup : (st.running.map fun t => t.pid).Nodup
  keyNodup : (st.infoMap.map Prod.fst).Nodup
  pathNodup : (st.infoMap.map fun kv => kv.2.path).Nodup
  runBound : ∀ t ∈ st.running, t.pid < st.nextPid
  infoBound : ∀ kv ∈ st.infoMap, kv.1 < st.nextPid
  fwd : ∀ t ∈ st.running, ∃ i, (t.pid, i) ∈ st.infoMap ∧ i.endTime = 0 ∧
    i.status ≠ LuaThreadStatus.Exited
  bwd : ∀ kv ∈ st.infoMap, kv.2.endTime = 0 → ∃ t ∈ st.running, t.pid = kv.1

theorem invariant_startNewThread (st : PluginState) (script : String)
    (args : List String) (now : Nat) (h : Invariant st)
    (hpath : ∀ kv ∈ st.infoMap, kv.2.path ≠ script) :
    Invariant (startNewThread st script args now).1 := by
  obtain ⟨hrn, hkn, hpn, hrb, hib, hfwd, hbwd⟩ := h
  have hfresh : st.nextPid ∉ st.infoMap.map Prod.fst := by
    intro hmem
    obtain ⟨kv, hkv, he⟩ := List.mem_map.1 hmem
    exact absurd (he ▸ hib kv hkv) (lt_irrefl _)
  have hemp := emplace_of_fresh st.nextPid
    ⟨st.nextPid, script, script, args, now, 0, [], LuaThreadStatus.Running⟩
    st.infoMap hfresh
  refine ⟨?_, ?_, ?_, ?_, ?_, ?_, ?_⟩
  · show ((st.running ++
      [(⟨st.nextPid, script, script, false, false, ⟨[], []⟩⟩ : LuaThread)]).map
        fun t => t.pid).Nodup
    rw [List.map_append]
    refine List.Nodup.append hrn (List.nodup_singleton _) ?_
    intro p hp hp'
    obtain ⟨u, hu, he⟩ := List.mem_map.1 hp
    have hplt : p < st.nextPid := he ▸ hrb u hu
    have : p = st.nextPid := by simpa using hp'
    exact absurd (this ▸ hplt) (lt_irrefl _)
  · show ((emplace st.nextPid
      ⟨st.nextPid, script, script, args, now, 0, [], LuaThreadStatus.Running⟩
      st.infoMap).map Prod.fst).Nodup
    rw [hemp, List.map_append]
    refine List.Nodup.append hkn (List.nodup_singleton _) ?_
    intro p hp hp'
    obtain ⟨kv, hkv, he⟩ := List.mem_map.1 hp
    have hplt : p < st.nextPid := he ▸ hib kv hkv
    have : p = st.nextPid := by simpa using hp'
    exact absurd (this ▸ hplt) (lt_irrefl _)
  · show ((emplace st.nextPid
      ⟨st.nextPid, script, script, args, now, 0, [], LuaThreadStatus.Running⟩
      st.infoMap).map fun kv => kv.2.path).Nodup
    rw [hemp, List.map_append]
    refine List.Nodup.append hpn (List.nodup_singleton _) ?_
    intro p hp hp'
    obtain ⟨kv, hkv, he⟩ := List.mem_map.1 hp
    have : p = script := by simpa using hp'
    exact hpath kv hkv (he ▸ this)
  · intro t ht
    show t.pid < st.nextPid + 1
    rcases List.mem_append.1 ht with ht | ht
    · exact Nat.lt_succ_of_lt (hrb t ht)
    · have : t = ⟨st.nextPid, script, script, false, false, ⟨[], []⟩⟩ := by
        simpa using ht
      rw [this]
      exact Nat.lt_succ_self _
  · intro kv hkv
    show kv.1 < st.nextPid + 1
    have hkv' : kv ∈ st.infoMap ++
        [(st.nextPid,
          (⟨st.nextPid, script, script, args, now, 0, [], LuaThreadStatus.Running⟩ :
            LuaThreadInfo))] := hemp ▸ hkv
    rcases List.mem_append.1 hkv' with hkv' | hkv'
    · exact Nat.lt_succ_of_lt (hib kv hkv')
    · have : kv.1 = st.nextPid := by
        have := List.mem_singleton.1 hkv'
        rw [this]
      rw [this]
      exact Nat.lt_succ_self _
  · intro t ht
    rcases List.mem_append.1 ht with ht | ht
    · obtain ⟨i, hi, he0, hs⟩ := hfwd t ht
      refine ⟨i, ?_, he0, hs⟩
      show (t.pid, i) ∈ emplace st.nextPid _ st.infoMap
      rw [hemp]
      exact List.mem_append_left _ hi
    · have ht' : t = ⟨st.nextPid, script, script, false, false, ⟨[], []⟩⟩ := by
        simpa using ht
      refine ⟨⟨st.nextPid, script, script, args, now, 0, [], LuaThreadStatus.Running⟩,
        ?_, rfl, by simp⟩
      show (t.pid, _) ∈ emplace st.nextPid _ st.infoMap
      rw [hemp, ht']
      exact List.mem_append_right _ (List.mem_singleton.2 rfl)
  · intro kv hkv he0
    have hkv' : kv ∈ st.infoMap ++
        [(st.nextPid,
          (⟨st.nextPid, script, script, args, now, 0, [], LuaThreadStatus.Running⟩ :
            LuaThreadInfo))] := hemp ▸ hkv
    rcases List.mem_append.1 hkv' with hkv' | hkv'
    · obtain ⟨u, hu, hpid⟩ := hbwd kv hkv' he0
      exact ⟨u, List.mem_append_left _ hu, hpid⟩
    · refine ⟨⟨st.nextPid, script, script, false, false, ⟨[], []⟩⟩,
        List.mem_append_right _ (List.mem_singleton.2 rfl), ?_⟩
      have := List.mem_singleton.1 hkv'
      rw [this]

theorem invariant_LuaRunCommand (st : PluginState) (script : String)
    (args : List String) (fileExists : Bool) (now : Nat) (h : Invariant st) :
    Invariant (LuaRunCommand st script args fileExists now).1 := by
  by_cases hf : fileExists = false
  · have : (LuaRunCommand st script args fileExists now).1 = st := by
      simp [LuaRunCommand, hf]
    rw [this]
    exact h
  · cases hfind : st.infoMap.find? (fun kv => kv.2.path == script) with
    | none =>
      have hred : (LuaRunCommand st script args fileExists now).1 =
          (startNewThread st script args now).1 := by
        simp [LuaRunCommand, hf, hfind]
      rw [hred]
      refine invariant_startNewThread st script args now h ?_
      intro kv hkv
      have := List.find?_eq_none.1 hfind kv hkv
      simpa using this
    | some kv =>
      have hkvmem := List.mem_of_find?_eq_some hfind
      have hkvpath : kv.2.path = script := by
        simpa using List.find?_some hfind
      by_cases hst : kv.2.status = LuaThreadStatus.Exited
      · have hred : (LuaRunCommand st script args fileExists now).1 =
            (startNewThread
              { st with infoMap := st.infoMap.eraseP fun kv => kv.2.path == script }
              script args now).1 := by
          simp [LuaRunCommand, hf, hfind, hst]
        rw [hred]
        obtain ⟨hrn, hkn, hpn, hrb, hib, hfwd, hbwd⟩ := h
        have hsub : List.Sublist (st.infoMap.eraseP fun kv => kv.2.path == script)
            st.infoMap := List.eraseP_sublist _
        refine invariant_startNewThread _ script args now ⟨hrn, ?_, ?_, hrb, ?_, ?_, ?_⟩ ?_
        · exact List.Nodup.sublist (hsub.map _) hkn
        · exact List.Nodup.sublist (hsub.map _) hpn
        · intro kv' hkv'
          exact hib kv' (hsub.subset hkv')
        · intro t ht
          obtain ⟨i, hi, he0, hs⟩ := hfwd t ht
          refine ⟨i, ?_, he0, hs⟩
          refine mem_eraseP_of_path_ne script st.infoMap (t.pid, i) hi ?_
          intro hip
          have : (t.pid, i) = kv :=
            entry_eq_of_path_eq hpn hi hkvmem (by rw [hip, hkvpath])
          have : i.status = LuaThreadStatus.Exited := by
            rw [show i = kv.2 from congrArg Prod.snd this]
            exact hst
          exact hs this
        · intro kv' hkv' he0
          exact hbwd kv' (hsub.subset hkv') he0
        · intro kv' hkv'
          exact eraseP_path_ne script st.infoMap hpn kv' hkv'
      · have hred : (LuaRunCommand st script args fileExists now).1 = st := by
          simp [LuaRunCommand, hf, hfind, hst]
        rw [hred]
        exact h

theorem invariant_replace_running (st : PluginState) (running₁ : List LuaThread)
    (hmap : running₁.map (fun t => t.pid) = st.running.map fun t => t.pid)
    (h : Invariant st) : Invariant { st with running := running₁ } := by
  obtain ⟨hrn, hkn, hpn, hrb, hib, hfwd, hbwd⟩ := h
  refine ⟨?_, hkn, hpn, ?_, hib, ?_, ?_⟩
  · show (running₁.map fun t => t.pid).Nodup
    rw [hmap]
    exact hrn
  · intro t ht
    have hpmem : t.pid ∈ st.running.map fun t => t.pid := by
      rw [← hmap]
      exact List.mem_map.2 ⟨t, ht, rfl⟩
    obtain ⟨u, hu, he⟩ := List.mem_map.1 hpmem
    show t.pid < st.nextPid
    rw [← he]
    exact hrb u hu
  · intro t ht
    have hpmem : t.pid ∈ st.running.map fun t => t.pid := by
      rw [← hmap]
      exact List.mem_map.2 ⟨t, ht, rfl⟩
    obtain ⟨u, hu, he⟩ := List.mem_map.1 hpmem
    obtain ⟨i, hi, he0, hs⟩ := hfwd u hu
    exact ⟨i, he ▸ hi, he0, hs⟩
  · intro kv hkv he0
    obtain ⟨u, hu, hpid⟩ := hbwd kv hkv he0
    have hpmem : u.pid ∈ running₁.map fun t => t.pid := by
      rw [hmap]
      exact List.mem_map.2 ⟨u, hu, rfl⟩
    obtain ⟨u', hu', he'⟩ := List.mem_map.1 hpmem
    exact ⟨u', hu', he'.trans hpid⟩

theorem invariant_status_update (st : PluginState) (k : Nat)
    (s : LuaThreadStatus) (hs : s ≠ LuaThreadStatus.Exited) (h : Invariant st) :
    Invariant { st with
      infoMap := updateInfoFirst k (fun i => { i with status := s }) st.infoMap } := by
  obtain ⟨hrn, hkn, hpn, hrb, hib, hfwd, hbwd⟩ := h
  refine ⟨hrn, ?_, ?_, hrb, ?_, ?_, ?_⟩
  · show ((updateInfoFirst k (fun i => { i with status := s }) st.infoMap).map
      Prod.fst).Nodup
    rw [updateInfoFirst_map_fst]
    exact hkn
  · show ((updateInfoFirst k (fun i => { i with status := s }) st.infoMap).map
      fun kv => kv.2.path).Nodup
    rw [updateInfoFirst_map_path k (fun i => { i with status := s }) (fun _ => rfl)]
    exact hpn
  · intro kv hkv
    rcases mem_updateInfoFirst_cases k _ st.infoMap kv hkv with hkv | ⟨i, hi, he⟩
    · exact hib kv hkv
    · show kv.1 < st.nextPid
      rw [he]
      exact hib (k, i) hi
  · intro t ht
    obtain ⟨i, hi, he0, hsne⟩ := hfwd t ht
    by_cases hk : t.pid = k
    · subst hk
      refine ⟨{ i with status := s }, ?_, he0, hs⟩
      exact mem_updateInfoFirst_self t.pid _ st.infoMap i hkn hi
    · exact ⟨i, mem_updateInfoFirst_of_ne k _ st.infoMap (t.pid, i) hi hk, he0, hsne⟩
  · intro kv hkv he0
    rcases mem_updateInfoFirst_cases k _ st.infoMap kv hkv with hkv' | ⟨i, hi, he⟩
    · exact hbwd kv hkv' he0
    · have hie : i.endTime = 0 := by
        have : kv.2.endTime = i.endTime := by rw [he]
        rw [← this]
        exact he0
      obtain ⟨u, hu, hpid⟩ := hbwd (k, i) hi hie
      refine ⟨u, hu, ?_⟩
      rw [hpid, he]

theorem invariant_fold_pause_status :
    ∀ (us : List LuaThread) (st : PluginState), Invariant st →
      Invariant { st with infoMap := (us.foldl (fun m u => updateInfoFirst u.pid
        (fun i => { i with status := pauseStatus (pauseThread u) }) m) st.infoMap) }
  | [], st, h => h
  | u :: us, st, h => by
    have h₁ := invariant_status_update st u.pid (pauseStatus (pauseThread u))
      (pauseStatus_ne_exited _) h
    exact invariant_fold_pause_status us _ h₁

theorem invariant_LuaStopCommand (st : PluginState) (target : Nat ⊕ String)
    (h : Invariant st) : Invariant (LuaStopCommand st target) :=
  invariant_replace_running st _ (stopFirst_map_pid _ st.running) h

theorem invariant_LuaStopAllCommand (st : PluginState) (h : Invariant st) :
    Invariant (LuaStopAllCommand st) :=
  invariant_replace_running st (st.running.map stopThread)
    (by simp [List.map_map, Function.comp, stopThread]) h

theorem invariant_LuaPauseCommand (st : PluginState) (target : Nat ⊕ String)
    (h : Invariant st) : Invariant (LuaPauseCommand st target) := by
  rcases hpf : pauseFirst (threadSel target) st.running with ⟨running₁, r⟩
  have hmap : running₁.map (fun t => t.pid) = st.running.map fun t => t.pid := by
    have := pauseFirst_map_pid (threadSel target) st.running
    rw [hpf] at this
    exact this
  cases r with
  | none =>
    have hred : LuaPauseCommand st target = { st with running := running₁ } := by
      unfold LuaPauseCommand
      rw [hpf]
    rw [hred]
    exact invariant_replace_running st running₁ hmap h
  | some ps =>
    obtain ⟨p, s⟩ := ps
    have hsne : s ≠ LuaThreadStatus.Exited :=
      pauseFirst_status (threadSel target) st.running p s (by rw [hpf])
    have hred : LuaPauseCommand st target =
        { st with
          running := running₁,
          infoMap := (updateInfoFirst p (fun i => { i with status := s }) st.infoMap) } := by
      unfold LuaPauseCommand
      rw [hpf]
    rw [hred]
    exact invariant_replace_running
      { st with
        infoMap := (updateInfoFirst p (fun i => { i with status := s }) st.infoMap) }
      running₁ hmap (invariant_status_update st p s hsne h)

theorem invariant_LuaPauseAllCommand (st : PluginState) (h : Invariant st) :
    Invariant (LuaPauseAllCommand st) :=
  invariant_replace_running _ (st.running.map pauseThread)
    (by simp [List.map_map, Function.comp, pauseThread])
    (invariant_fold_pause_status st.running st h)

theorem invariant_pulse_mid (beh : Nat → RunOutcome) (now : Nat)
    (st : PluginState) (hnow : 0 < now) (h : Invariant st) :
    Invariant { st with
      running := (pulseThreads beh now st.running st.infoMap).running,
      infoMap := (pulseThreads beh now st.running st.infoMap).infoMap } := by
  obtain ⟨hrn, hkn, hpn, hrb, hib, hfwd, hbwd⟩ := h
  have hkn' : (((pulseThreads beh now st.running st.infoMap).infoMap).map
      Prod.fst).Nodup := by
    rw [pulseThreads_map_fst]
    exact hkn
  refine ⟨?_, hkn', ?_, ?_, ?_, ?_, ?_⟩
  · show (((pulseThreads beh now st.running st.infoMap).running).map
      fun t => t.pid).Nodup
    exact List.Nodup.sublist
      ((pulseThreads_running_sublist beh now st.running st.infoMap).map _) hrn
  · show (((pulseThreads beh now st.running st.infoMap).infoMap).map
      fun kv => kv.2.path).Nodup
    rw [pulseThreads_map_path]
    exact hpn
  · intro t ht
    exact hrb t (mem_pulseThreads_running beh now st.running st.infoMap t ht).1
  · intro kv hkv
    have hpmem : kv.1 ∈ ((pulseThreads beh now st.running st.infoMap).infoMap).map
        Prod.fst := List.mem_map.2 ⟨kv, hkv, rfl⟩
    rw [pulseThreads_map_fst] at hpmem
    obtain ⟨kv₀, hkv₀, he⟩ := List.mem_map.1 hpmem
    show kv.1 < st.nextPid
    rw [← he]
    exact hib kv₀ hkv₀
  · intro t ht
    obtain ⟨hts, hab, hro⟩ := mem_pulseThreads_running beh now st.running st.infoMap t ht
    obtain ⟨i, hi, he0, hs⟩ := hfwd t hts
    refine ⟨i, ?_, he0, hs⟩
    refine pulseThreads_untouched beh now st.running st.infoMap t.pid i hi ?_
    intro u hu hpe
    have : u = t := List.inj_on_of_nodup_map hrn hu hts hpe
    rw [this]
    exact ⟨hab, hro⟩
  · intro kv hkv he0
    rcases mem_pulseThreads_infoMap beh now st.running st.infoMap kv hkv with hm | hm
    · obtain ⟨u, hu, hupid⟩ := hbwd kv hm he0
      by_cases hstay : u.abandoned = false ∧ runOutcome beh u = RunOutcome.yielded
      · exact ⟨u, pulseThreads_keeps_yielded beh now st.running st.infoMap u hu
          hstay.1 hstay.2, hupid⟩
      · exfalso
        have hend : u.abandoned = true ∨ runOutcome beh u ≠ RunOutcome.yielded := by
          cases hab : u.abandoned with
          | true => exact Or.inl rfl
          | false =>
            refine Or.inr ?_
            intro hro
            exact hstay ⟨hab, hro⟩
        have hkvm : (u.pid, kv.2) ∈ st.infoMap := by
          have : (u.pid, kv.2) = kv := by
            rw [hupid]
          rw [this]
          exact hm
        obtain ⟨i', hi', hie', _⟩ :=
          pulseThreads_ended_record beh now st.running st.infoMap u kv.2 hkn hu
            hkvm hend
        have : kv = (u.pid, i') := entry_eq_of_key_eq hkn' hkv hi' (by rw [hupid])
        have : kv.2.endTime = now := by
          rw [show kv.2 = i' from congrArg Prod.snd this]
          exact hie'
        rw [he0] at this
        exact absurd this.symm (Nat.ne_of_gt hnow)
    · rw [he0] at hm
      exact absurd hm.symm (Nat.ne_of_gt hnow)

theorem invariant_OnPulse (beh : Nat → RunOutcome) (now infoGC : Nat)
    (st : PluginState) (hnow : 0 < now) (h : Invariant st) :
    Invariant (OnPulse beh now infoGC st).1 := by
  have hmid := invariant_pulse_mid beh now st hnow h
  by_cases hgc : gcTriggered infoGC st.lastCheckTime now = true
  · have hred : (OnPulse beh now infoGC st).1 =
        { st with
          running := (pulseThreads beh now st.running st.infoMap).running,
          infoMap := gcSweep st.lastCheckTime
            (pulseThreads beh now st.running st.infoMap).infoMap,
          lastCheckTime := now } := by
      simp [OnPulse, hgc]
    rw [hred]
    obtain ⟨hrn₁, hkn₁, hpn₁, hrb₁, hib₁, hfwd₁, hbwd₁⟩ := hmid
    have hsub : List.Sublist
        (gcSweep st.lastCheckTime (pulseThreads beh now st.running st.infoMap).infoMap)
        (pulseThreads beh now st.running st.infoMap).infoMap :=
      List.filter_sublist _
    refine ⟨hrn₁, ?_, ?_, hrb₁, ?_, ?_, ?_⟩
    · exact List.Nodup.sublist (hsub.map _) hkn₁
    · exact List.Nodup.sublist (hsub.map _) hpn₁
    · intro kv hkv
      exact hib₁ kv (hsub.subset hkv)
    · intro t ht
      obtain ⟨i, hi, he0, hs⟩ := hfwd₁ t ht
      refine ⟨i, ?_, he0, hs⟩
      show (t.pid, i) ∈ gcSweep st.lastCheckTime _
      rw [gcSweep]
      refine List.mem_filter.2 ⟨hi, ?_⟩
      simp [he0]
    · intro kv hkv he0
      exact hbwd₁ kv (hsub.subset hkv) he0
  · have hred : (OnPulse beh now infoGC st).1 =
        { st with
          running := (pulseThreads beh now st.running st.infoMap).running,
          infoMap := (pulseThreads beh now st.running st.infoMap).infoMap } := by
      simp [OnPulse, hgc]
    rw [hred]
    exact hmid

theorem invariant_reachable (infoGC : Nat) (st : PluginState)
    (h : Reachable infoGC st) : Invariant st := by
  induction h with
  | init t₀ =>
    exact ⟨by simp [initialState], by simp [initialState], by simp [initialState],
      by simp [initialState], by simp [initialState], by simp [initialState],
      by simp [initialState]⟩
  | launch script args fileExists now hnow hst ih =>
    exact invariant_LuaRunCommand _ script args fileExists now ih
  | stop target hst ih => exact invariant_LuaStopCommand _ target ih
  | stopAll hst ih => exact invariant_LuaStopAllCommand _ ih
  | pause target hst ih => exact invariant_LuaPauseCommand _ target ih
  | pauseAll hst ih => exact invariant_LuaPauseAllCommand _ ih
  | pulse beh now hnow hst ih => exact invariant_OnPulse beh now infoGC _ hnow ih

/-! ### Event queue drain (C5) -/

theorem run_events_loop_spec (h : Handler) :
    ∀ (q extra acc : List LuaEventInstance),
      run_events_loop h q.length (q ++ extra) acc =
        (acc.reverse ++ q, extra ++ (q.map h).flatten)
  | [], extra, acc => by simp [run_events_loop]
  | i :: q, extra, acc => by
    show run_events_loop h q.length ((q ++ extra) ++ h i) (i :: acc) = _
    rw [List.append_assoc, run_events_loop_spec h q (extra ++ h i) (i :: acc)]
    simp

/-- Claim C5: `run_events` invokes only the invocations queued at entry —
the invoked list is exactly the entry queue, and exactly the events the
handlers enqueued during the drain (in order) are still queued, not
invoked, when it returns; they await a later drain. -/
theorem run_events_drains_only_snapshot (h : Handler) (p : LuaEventProcessor) :
    run_events h p =
      (p.EventQueue, { p with EventQueue := (p.EventQueue.map h).flatten }) := by
  have hspec := run_events_loop_spec h p.EventQueue [] []
  simp at hspec
  simp [run_events, hspec]

/-! ### Trigger classification (C6) -/

/-- Claim C6: a line matched by several triggers of one instance fires all
of them, in registration order; `process` is deterministic and only
appends the matches to the queue (registrations untouched). -/
theorem process_overlapping_triggers (m : Matcher) (line : String)
    (p : LuaEventProcessor) (l₁ l₂ l₃ : List LuaEvent) (e₁ e₂ : LuaEvent)
    (a₁ a₂ : List String)
    (hdefs : p.EventDefinitions = l₁ ++ e₁ :: l₂ ++ e₂ :: l₃)
    (h₁ : m e₁.Expression line = some a₁)
    (h₂ : m e₂.Expression line = some a₂) :
    (process m line p).EventDefinitions = p.EventDefinitions ∧
    (process m line p).EventQueue =
      p.EventQueue ++ classify m p.EventDefinitions line ∧
    List.Sublist [⟨e₁, a₁⟩, ⟨e₂, a₂⟩] (classify m p.EventDefinitions line) ∧
    (∀ e ∈ p.EventDefinitions, ∀ a, m e.Expression line = some a →
      (⟨e, a⟩ : LuaEventInstance) ∈ (process m line p).EventQueue) := by
  refine ⟨rfl, rfl, ?_, ?_⟩
  · rw [hdefs]
    have hcls : classify m (l₁ ++ e₁ :: l₂ ++ e₂ :: l₃) line =
        classify m l₁ line ++ ⟨e₁, a₁⟩ ::
          (classify m l₂ line ++ ⟨e₂, a₂⟩ :: classify m l₃ line) := by
      simp [classify, List.filterMap_append, List.filterMap_cons, h₁, h₂]
    rw [hcls]
    refine List.Sublist.trans ?_ (List.sublist_append_right _ _)
    refine List.Sublist.cons₂ _ ?_
    refine List.Sublist.trans ?_ (List.sublist_append_right _ _)
    exact List.Sublist.cons₂ _ (List.nil_sublist _)
  · intro e he a hm
    refine List.mem_append_right _ (List.mem_filterMap.2 ⟨e, he, ?_⟩)
    simp [hm]

def matcherC6 : Matcher := fun expr line =>
  if expr = "#1# hits" then some [line]
  else if expr = "hits" then some [] else none

def eventC6a : LuaEvent := ⟨"evA", "#1# hits", 1⟩

def eventC6b : LuaEvent := ⟨"evB", "hits", 2⟩

def procC6 : LuaEventProcessor := ⟨[eventC6a, eventC6b], []⟩

theorem process_overlapping_triggers_witness :
    (process matcherC6 "bob hits" procC6).EventDefinitions =
      procC6.EventDefinitions ∧
    (process matcherC6 "bob hits" procC6).EventQueue =
      procC6.EventQueue ++ classify matcherC6 procC6.EventDefinitions "bob hits" ∧
    List.Sublist [⟨eventC6a, ["bob hits"]⟩, ⟨eventC6b, []⟩]
      (classify matcherC6 procC6.EventDefinitions "bob hits") ∧
    (∀ e ∈ procC6.EventDefinitions, ∀ a, matcherC6 e.Expression "bob hits" = some a →
      (⟨e, a⟩ : LuaEventInstance) ∈ (process matcherC6 "bob hits" procC6).EventQueue) :=
  process_overlapping_triggers matcherC6 "bob hits" procC6 [] [] []
    eventC6a eventC6b ["bob hits"] [] rfl (by decide) (by decide)

/-! ### Registry garbage collection (C7, C8) -/

/-- Claim C7: a sweep removes a record exactly when its `endTime` is
positive and at most the last checkpoint; a record with `endTime == 0` is
never removed, however old. -/
theorem gcSweep_removes_iff (lastCheck : Nat) (m : List (Nat × LuaThreadInfo))
    (kv : Nat × LuaThreadInfo) (hmem : kv ∈ m) :
    (kv ∈ gcSweep lastCheck m ↔
      ¬(0 < kv.2.endTime ∧ kv.2.endTime ≤ lastCheck)) ∧
    (kv.2.endTime = 0 → kv ∈ gcSweep lastCheck m) := by
  constructor
  · simp [gcSweep, List.mem_filter, hmem]
    omega
  · intro h0
    simp [gcSweep, List.mem_filter, hmem, h0]

def infoC7 : LuaThreadInfo := ⟨1, "a", "a", [], 3, 5, [], LuaThreadStatus.Exited⟩

def mapC7 : List (Nat × LuaThreadInfo) := [(1, infoC7)]

theorem gcSweep_removes_iff_witness :
    ((1, infoC7) ∈ gcSweep 10 mapC7 ↔
      ¬(0 < infoC7.endTime ∧ infoC7.endTime ≤ 10)) ∧
    (infoC7.endTime = 0 → (1, infoC7) ∈ gcSweep 10 mapC7) :=
  gcSweep_removes_iff 10 mapC7 (1, infoC7) (by simp [mapC7])

/-- Claim C8 (code-bug evidence): the configured interval is stored in
milliseconds — `"1h"` parses to `3600000`, the default — but `OnPulse`
compares it against `time_t` values in seconds without conversion, so with
the default interval a pulse one hour (3600 s) after the checkpoint does
not trigger a sweep and does not advance the checkpoint; the sweep first
fires 3 600 000 seconds (≈ 41.7 days) after the checkpoint. -/
theorem gc_trigger_units_mismatch :
    parseGCInterval s_infoGC_default "1h" = 3600000 ∧
    s_infoGC_default = 3600000 ∧
    gcTriggered s_infoGC_default 0 3600 = false ∧
    gcTriggered s_infoGC_default 0 3599999 = false ∧
    gcTriggered s_infoGC_default 0 3600000 = true ∧
    (OnPulse (fun _ => RunOutcome.yielded) 3600 s_infoGC_default
        (initialState 0)).1.lastCheckTime = 0 ∧
    (OnPulse (fun _ => RunOutcome.yielded) 3600000 s_infoGC_default
        (initialState 0)).1.lastCheckTime = 3600000 := by
  refine ⟨by decide, rfl, rfl, by decide, by decide, rfl, by decide⟩

/-! ### Name-ambiguous Script lookup (C9) -/

def infoC9run : LuaThreadInfo :=
  ⟨1, "alpha", "alpha", [], 100, 0, [], LuaThreadStatus.Running⟩

def infoC9done : LuaThreadInfo :=
  ⟨2, "beta", "beta", [], 50, 5, [], LuaThreadStatus.Exited⟩

def mapC9 : List (Nat × LuaThreadInfo) := [(1, infoC9run), (2, infoC9done)]

/-- Claim C9 (code-bug evidence): on a registry whose first record is still
running (`endTime == 0`) with the globally latest `startTime`, the
no-index `Script` lookup returns nothing although a record with a set end
time exists — the scan seeds its candidate with the first record
regardless of its `endTime`, contradicting the source comment "grab the
latest start time that has an end time". -/
theorem GetMember_Script_misses_terminal :
    GetMember_Script mapC9 = none ∧
    (2, infoC9done) ∈ mapC9 ∧ 0 < infoC9done.endTime ∧
    (∀ kv ∈ mapC9, 0 < kv.2.endTime → kv.2.startTime ≤ infoC9done.startTime) := by
  refine ⟨by decide, by decide, by decide, by decide⟩

/-! ### Line delivery skips paused instances (C10) -/

/-- Claim C10: both line-delivery callbacks leave a paused thread entirely
untouched — its pattern matcher is never consulted and nothing is enqueued
for it, so the line is lost to its triggers rather than deferred. -/
theorem paused_threads_skip_lines (m : Matcher) (line : String)
    (running : List LuaThread) (i : Nat) (t : LuaThread)
    (ht : running[i]? = some t) (hp : t.paused = true) :
    (OnWriteChatColor m line running)[i]? = some t ∧
    (OnIncomingChat m line running).1[i]? = some t := by
  have hmap :
      (running.map fun t =>
        if t.paused then t
        else { t with eventProcessor := process m line t.eventProcessor })[i]? =
      some t := by
    rw [List.getElem?_map, ht]
    simp [hp]
  exact ⟨hmap, hmap⟩

def threadC10 : LuaThread := ⟨1, "a", "a", true, false, ⟨[], []⟩⟩

def matcherC10 : Matcher := fun _ _ => some []

theorem paused_threads_skip_lines_witness :
    (OnWriteChatColor matcherC10 "line" [threadC10])[0]? = some threadC10 ∧
    (OnIncomingChat matcherC10 "line" [threadC10]).1[0]? = some threadC10 :=
  paused_threads_skip_lines matcherC10 "line" [threadC10] 0 threadC10 rfl rfl

/-! ### Claim theorems C1–C4 -/

/-- Claim C1: across every sequence of launch, stop, pause/resume and pulse
operations, `s_running` and `s_infoMap` agree on which ids are running — a
registry record has `endTime == 0` exactly when a live instance with that
id exists, and every live instance has a registry record with its id. -/
theorem registry_live_agreement (infoGC : Nat) (st : PluginState)
    (h : Reachable infoGC st) :
    (∀ kv ∈ st.infoMap, (kv.2.endTime = 0 ↔ ∃ t ∈ st.running, t.pid = kv.1)) ∧
    (∀ t ∈ st.running, ∃ i, (t.pid, i) ∈ st.infoMap) := by
  obtain ⟨hrn, hkn, hpn, hrb, hib, hfwd, hbwd⟩ := invariant_reachable infoGC st h
  constructor
  · intro kv hkv
    constructor
    · exact hbwd kv hkv
    · rintro ⟨t, ht, hpid⟩
      obtain ⟨i, hi, he0, _⟩ := hfwd t ht
      have hkvi : kv = (t.pid, i) := entry_eq_of_key_eq hkn hkv hi hpid.symm
      rw [show kv.2 = i from congrArg Prod.snd hkvi]
      exact he0
  · intro t ht
    obtain ⟨i, hi, _, _⟩ := hfwd t ht
    exact ⟨i, hi⟩

theorem registry_live_agreement_witness :
    (∀ kv ∈ (LuaRunCommand (initialState 3) "scr" [] true 5).1.infoMap,
      (kv.2.endTime = 0 ↔
        ∃ t ∈ (LuaRunCommand (initialState 3) "scr" [] true 5).1.running,
          t.pid = kv.1)) ∧
    (∀ t ∈ (LuaRunCommand (initialState 3) "scr" [] true 5).1.running,
      ∃ i, (t.pid, i) ∈ (LuaRunCommand (initialState 3) "scr" [] true 5).1.infoMap) :=
  registry_live_agreement 3600000 _
    (Reachable.launch "scr" [] true 5 (by decide) (Reachable.init 3))

/-- Claim C2: when one instance's resumption faults during a pulse, that
instance is converted to a terminal `Exited` record stamped with the pulse
time, the "Ending lua script" diagnostic fires for it, it leaves the live
set — and every instance scheduled later in the same pulse whose coroutine
is still resumable is still resumed in that pulse.  The fault never escapes
the loop: the embedded resumption is total, statuses included, per the
spec's resume contract. -/
theorem pulse_fault_isolated (beh : Nat → RunOutcome) (now : Nat)
    (st : PluginState) (pre mid post : List LuaThread) (a b : LuaThread)
    (ia : LuaThreadInfo)
    (hrun : st.running = pre ++ a :: mid ++ b :: post)
    (_haab : a.abandoned = false) (hap : a.paused = false)
    (hfault : beh a.pid = RunOutcome.faulted)
    (hbab : b.abandoned = false)
    (hmem : (a.pid, ia) ∈ st.infoMap)
    (hkeys : (st.infoMap.map Prod.fst).Nodup) :
    (∃ ia', (a.pid, ia') ∈ (pulseThreads beh now st.running st.infoMap).infoMap ∧
      ia'.endTime = now ∧ ia'.status = LuaThreadStatus.Exited) ∧
    a.pid ∈ (pulseThreads beh now st.running st.infoMap).ended ∧
    a ∉ (pulseThreads beh now st.running st.infoMap).running ∧
    b.pid ∈ (pulseThreads beh now st.running st.infoMap).resumed := by
  have hamem : a ∈ st.running := by
    rw [hrun]
    simp
  have hbmem : b ∈ st.running := by
    rw [hrun]
    simp
  have hro : runOutcome beh a = RunOutcome.faulted := by
    rw [runOutcome, hap]
    simpa using hfault
  have hend : a.abandoned = true ∨ runOutcome beh a ≠ RunOutcome.yielded := by
    rw [hro]
    simp
  refine ⟨?_, ?_, ?_, ?_⟩
  · exact pulseThreads_ended_record beh now st.running st.infoMap a ia hkeys
      hamem hmem hend
  · exact pulseThreads_ended_log beh now st.running st.infoMap a hamem hend
  · intro hin
    have := (mem_pulseThreads_running beh now st.running st.infoMap a hin).2.2
    rw [hro] at this
    simp at this
  · exact pulseThreads_resumed beh now st.running st.infoMap b hbmem hbab

def threadC2a : LuaThread := ⟨1, "a", "a", false, false, ⟨[], []⟩⟩

def threadC2b : LuaThread := ⟨2, "b", "b", false, false, ⟨[], []⟩⟩

def infoC2a : LuaThreadInfo := ⟨1, "a", "a", [], 1, 0, [], LuaThreadStatus.Running⟩

def infoC2b : LuaThreadInfo := ⟨2, "b", "b", [], 1, 0, [], LuaThreadStatus.Running⟩

def stateC2 : PluginState :=
  ⟨[threadC2a, threadC2b], [(1, infoC2a), (2, infoC2b)], 3, 0⟩

def behC2 : Nat → RunOutcome :=
  fun pid => if pid = 1 then RunOutcome.faulted else RunOutcome.yielded

theorem pulse_fault_isolated_witness :
    (∃ ia', (threadC2a.pid, ia') ∈
        (pulseThreads behC2 7 stateC2.running stateC2.infoMap).infoMap ∧
      ia'.endTime = 7 ∧ ia'.status = LuaThreadStatus.Exited) ∧
    threadC2a.pid ∈ (pulseThreads behC2 7 stateC2.running stateC2.infoMap).ended ∧
    threadC2a ∉ (pulseThreads behC2 7 stateC2.running stateC2.infoMap).running ∧
    threadC2b.pid ∈ (pulseThreads behC2 7 stateC2.running stateC2.infoMap).resumed :=
  pulse_fault_isolated behC2 7 stateC2 [] [] [] threadC2a threadC2b infoC2a
    rfl rfl rfl (by decide) rfl (by decide) (by decide)

/-- Claim C3: a launch whose resolved path matches a registry record that is
not yet `Exited` is rejected — the caller sees the "already running"
outcome and neither the live list nor the registry changes.  Under the
agreement invariant (C1) a non-`Exited` open record is exactly one whose
owning instance is non-terminal. -/
theorem launch_rejected_when_running (st : PluginState) (script : String)
    (args : List String) (now : Nat) (kv : Nat × LuaThreadInfo)
    (hpaths : (st.infoMap.map fun kv => kv.2.path).Nodup)
    (hmem : kv ∈ st.infoMap) (hpath : kv.2.path = script)
    (hstat : kv.2.status ≠ LuaThreadStatus.Exited) :
    LuaRunCommand st script args true now = (st, LaunchResult.alreadyRunning) := by
  have hfind := find_path_unique script st.infoMap kv hpaths hmem hpath
  simp [LuaRunCommand, hfind, hstat]

def infoC3 : LuaThreadInfo := ⟨1, "scr", "scr", [], 1, 0, [], LuaThreadStatus.Running⟩

def stateC3 : PluginState :=
  ⟨[⟨1, "scr", "scr", false, false, ⟨[], []⟩⟩], [(1, infoC3)], 2, 0⟩

theorem launch_rejected_when_running_witness :
    LuaRunCommand stateC3 "scr" [] true 9 = (stateC3, LaunchResult.alreadyRunning) :=
  launch_rejected_when_running stateC3 "scr" [] 9 (1, infoC3) (by decide)
    (by decide) rfl (by decide)

/-- Claim C4: launching a script whose path matches a terminal (`Exited`)
registry record erases the old record and registers the new instance, so
afterwards exactly one record for that script path exists — the new one,
keyed by the freshly assigned pid. -/
theorem launch_evicts_terminal (st : PluginState) (script : String)
    (args : List String) (now : Nat) (kv : Nat × LuaThreadInfo)
    (hpaths : (st.infoMap.map fun kv => kv.2.path).Nodup)
    (hbound : ∀ kv ∈ st.infoMap, kv.1 < st.nextPid)
    (hmem : kv ∈ st.infoMap) (hpath : kv.2.path = script)
    (hstat : kv.2.status = LuaThreadStatus.Exited) :
    (LuaRunCommand st script args true now).2 = LaunchResult.started st.nextPid ∧
    kv ∉ (LuaRunCommand st script args true now).1.infoMap ∧
    ((LuaRunCommand st script args true now).1.infoMap.filter
      fun kv => kv.2.path == script) =
      [(st.nextPid,
        ⟨st.nextPid, script, script, args, now, 0, [], LuaThreadStatus.Running⟩)] := by
  have hfind := find_path_unique script st.infoMap kv hpaths hmem hpath
  have hfresh : st.nextPid ∉
      (st.infoMap.eraseP fun kv => kv.2.path == script).map Prod.fst := by
    intro hf
    obtain ⟨kv', hkv', he⟩ := List.mem_map.1 hf
    have hkv'' : kv' ∈ st.infoMap := (List.eraseP_sublist _).subset hkv'
    exact absurd (he ▸ hbound kv' hkv'') (lt_irrefl _)
  have hemp := emplace_of_fresh st.nextPid
    ⟨st.nextPid, script, script, args, now, 0, [], LuaThreadStatus.Running⟩
    (st.infoMap.eraseP fun kv => kv.2.path == script) hfresh
  have hred : LuaRunCommand st script args true now =
      startNewThread
        { st with infoMap := st.infoMap.eraseP fun kv => kv.2.path == script }
        script args now := by
    simp [LuaRunCommand, hfind, hstat]
  rw [hred]
  refine ⟨rfl, ?_, ?_⟩
  · intro hkv
    simp only [startNewThread] at hkv
    rw [hemp] at hkv
    rcases List.mem_append.1 hkv with hkv | hkv
    · exact eraseP_path_ne script st.infoMap hpaths kv hkv hpath
    · have hk1 : kv.1 = st.nextPid := by
        have := List.mem_singleton.1 hkv
        rw [this]
      exact absurd (hk1 ▸ hbound kv hmem) (lt_irrefl _)
  · show ((emplace st.nextPid
      ⟨st.nextPid, script, script, args, now, 0, [], LuaThreadStatus.Running⟩
      (st.infoMap.eraseP fun kv => kv.2.path == script)).filter
        fun kv => kv.2.path == script) = _
    rw [hemp, List.filter_append]
    have h1 : ((st.infoMap.eraseP fun kv => kv.2.path == script).filter
        fun kv => kv.2.path == script) = [] := by
      rw [List.filter_eq_nil_iff]
      intro a ha
      have := eraseP_path_ne script st.infoMap hpaths a ha
      simpa using this
    rw [h1]
    simp

def infoC4 : LuaThreadInfo := ⟨1, "scr", "scr", [], 1, 4, [], LuaThreadStatus.Exited⟩

def stateC4 : PluginState := ⟨[], [(1, infoC4)], 2, 0⟩

theorem launch_evicts_terminal_witness :
    (LuaRunCommand stateC4 "scr" ["x"] true 9).2 = LaunchResult.started 2 ∧
    (1, infoC4) ∉ (LuaRunCommand stateC4 "scr" ["x"] true 9).1.infoMap ∧
    ((LuaRunCommand stateC4 "scr" ["x"] true 9).1.infoMap.filter
      fun kv => kv.2.path == "scr") =
      [(2, ⟨2, "scr", "scr", ["x"], 9, 0, [], LuaThreadStatus.Running⟩)] :=
  launch_evicts_terminal stateC4 "scr" ["x"] 9 (1, infoC4) (by decide)
    (by decide) (by decide) rfl (by decide)

end MQ2Lua
